import Mathlib

/-!
Verification of the cover-resolution and template-substitution core of
`cmus-notify` (`src/lib.rs`), as a shallow embedding.

Filesystem and tag I/O (`std::fs::read_dir`, `id3::Tag::read_from_path`,
`temp_file::TempFile`, `Path::parent`) are modelled by an explicit
environment record `Env`: each field gives the outcome the operating
system / library would return for a given argument.  The Rust functions
`get_embedded_art`, `search`, `search_for`, `track_cover` and
`process_template_placeholders` are translated line by line against that
environment; machine integers only occur as the `u8` hop budget, which is
only ever compared with 0 and decremented when nonzero, so it is embedded
as `Nat`.
-/

namespace CmusNotify

/-- Stand-in for `std::io::Error`; the code never inspects the error value,
only whether one occurred. -/
structure IOError where
  code : Nat
deriving DecidableEq, Repr

/-- One embedded picture of an ID3 tag (`id3::frame::Picture`): the code
only uses its raw byte data. -/
structure Picture where
  data : List Nat
deriving DecidableEq, Repr

/-- A handle as returned by `temp_file::TempFile`; opaque to the code. -/
structure TempFile where
  id : Nat
deriving DecidableEq, Repr

/-- One entry yielded by `std::fs::read_dir`, with the fallible accessors
the `search` loop uses: the entry itself (`Result`), `file_type()`,
`is_file()`, `file_name().into_string()`, and `path().to_str()`. -/
structure DirEntry where
  entryOk : Bool
  fileTypeOk : Bool
  isFile : Bool
  nameOk : Bool
  name : String
  pathOk : Bool
  path : String
deriving DecidableEq, Repr

/-- The outcomes of the I/O operations the library performs, per argument:
`readTag p` is `id3::Tag::read_from_path(p)` followed by `pictures()`
collected in container order; `newTempFile` is `TempFile::new()`;
`withContents tf bytes` is `tf.with_contents(bytes)`; `readDir d` is
`std::fs::read_dir(d)` collected in the filesystem-defined order; and
`parent d` is `Path::new(d).parent()` composed with `to_str()` (`none`
covers both a missing parent and a non-UTF-8 one, which the code treats
alike). -/
structure Env where
  readTag : String → Except IOError (List Picture)
  newTempFile : Except IOError TempFile
  withContents : TempFile → List Nat → Except IOError TempFile
  readDir : String → Except IOError (List DirEntry)
  parent : String → Option String

/-- `get_embedded_art` (src/lib.rs): read the tag (`?` propagates the
error), take the first picture if any, and write its bytes to a fresh
temp file. -/
def get_embedded_art (env : Env) (track_path : String) :
    Except IOError (Option TempFile) :=
  match env.readTag track_path with
  | .error e => .error e
  | .ok pics =>
    match pics with
    | [] => .ok none
    | picture :: _ =>
      match env.newTempFile with
      | .error e => .error e
      | .ok temp_file =>
        match env.withContents temp_file picture.data with
        | .error e => .error e
        | .ok tf => .ok (some tf)

/-- The entry scan of `search` (src/lib.rs): entries that fail at any
accessor are skipped with `continue`; the first surviving regular file
whose name matches is returned via its path. -/
def searchEntries (matcher : String → Bool) : List DirEntry → Option String
  | [] => none
  | e :: rest =>
    if e.entryOk then
      if e.fileTypeOk then
        if e.isFile then
          if e.nameOk then
            if matcher e.name then
              if e.pathOk then some e.path
              else searchEntries matcher rest
            else searchEntries matcher rest
          else searchEntries matcher rest
        else searchEntries matcher rest
      else searchEntries matcher rest
    else searchEntries matcher rest

/-- `search` (src/lib.rs): `read_dir(search_directory)?` propagates the
I/O error; otherwise scan the entries. -/
def search (env : Env) (search_directory : String) (matcher : String → Bool) :
    Except IOError (Option String) :=
  match env.readDir search_directory with
  | .error e => .error e
  | .ok entries => .ok (searchEntries matcher entries)

/-- `search_for` (src/lib.rs): the upward loop.  `search(dir)?` propagates
errors and returns on the first match; with a zero budget it stops,
otherwise it decrements the budget and moves to the parent, returning
`Ok(None)` when there is no (UTF-8) parent. -/
def search_for (env : Env) (search_directory : String) (max_depth : Nat)
    (matcher : String → Bool) : Except IOError (Option String) :=
  match search env search_directory matcher, max_depth with
  | .error e, _ => .error e
  | .ok (some path), _ => .ok (some path)
  | .ok none, 0 => .ok none
  | .ok none, d + 1 =>
    match env.parent search_directory with
    | none => .ok none
    | some parentDir => search_for env parentDir d matcher

/-- The directories on which `search_for` invokes `search`, in order: the
starting directory, then — only when the search there found nothing, the
budget is positive and a parent exists — the directories the recursive
call inspects. -/
def searchDirs (env : Env) (search_directory : String) (max_depth : Nat)
    (matcher : String → Bool) : List String :=
  search_directory ::
    match search env search_directory matcher, max_depth with
    | .ok none, d + 1 =>
      match env.parent search_directory with
      | some parentDir => searchDirs env parentDir d matcher
      | none => []
    | _, _ => []

/-- `TrackCover` (src/lib.rs). -/
inductive TrackCover where
  | Embedded : TempFile → TrackCover
  | External : String → TrackCover
  | None : TrackCover
deriving DecidableEq, Repr

/-- Whether a `TrackCover` is the `Embedded` variant. -/
def TrackCover.isEmbedded : TrackCover → Bool
  | .Embedded _ => true
  | _ => false

/-- Whether a `TrackCover` is the `External` variant. -/
def TrackCover.isExternal : TrackCover → Bool
  | .External _ => true
  | _ => false

/-- The regular expression `.*\.(jpg|jpeg|png|gif)$` of `track_cover`,
under `regex::Regex::is_match` semantics: `.` does not cross a newline
but the match may start anywhere, so a file name matches exactly when it
ends in one of the four literal suffixes. -/
def coverMatcher (name : String) : Bool :=
  hasSuffix ".jpg".data name.data || hasSuffix ".jpeg".data name.data ||
    hasSuffix ".png".data name.data || hasSuffix ".gif".data name.data
where
  /-- `suf` is a suffix of `l`. -/
  hasSuffix (suf l : List Char) : Bool :=
    (l.drop (l.length - suf.length)) == suf && suf.length ≤ l.length

/-- `track_cover` (src/lib.rs): unless `force_use_external_cover`, a
successful embedded extraction short-circuits; unless
`no_use_external_cover`, a successful external search is returned;
otherwise `TrackCover::None`.  Both `if let Ok(Some(..))` tests treat an
error exactly like a miss. -/
def track_cover (env : Env) (track_path : String) (max_depth : Nat)
    (force_use_external_cover : Bool) (no_use_external_cover : Bool) :
    TrackCover :=
  match force_use_external_cover, get_embedded_art env track_path with
  | false, .ok (some cover) => TrackCover.Embedded cover
  | _, _ =>
    match no_use_external_cover, search_for env track_path max_depth coverMatcher with
    | false, .ok (some cover) => TrackCover.External cover
    | _, _ => TrackCover.None

/-- Modelled from the spec: the `Track` structure itself lives in
`src/cmus/mod.rs`, which is not part of the sources at hand; per the spec
(§3, §6) it exposes a display-name accessor and a string-to-string
metadata mapping with unique keys, both read-only, which is all the
template engine uses. -/
structure Track where
  name : String
  metadata : List (String × String)
deriving DecidableEq, Repr

/-- Modelled from the spec: `Track::get_name` is the display-name
accessor of §6. -/
def Track.get_name (t : Track) : String :=
  t.name

/-- `track.metadata.get(&key)` on the unique-key mapping. -/
def Track.metadataGet (t : Track) (key : String) : Option String :=
  t.metadata.lookup key

/-- The `match key.as_str()` of `process_template_placeholders`: `"title"`
resolves to the display name, any other key to its metadata value, or
`""` (`unwrap_or("")`) when absent. -/
def resolveKey (track : Track) (key : String) : String :=
  if key = "title" then track.get_name
  else (track.metadataGet key).getD ""

/-- `pat` begins the list `l`. -/
def listStartsWith : List Char → List Char → Bool
  | [], _ => true
  | _ :: _, [] => false
  | p :: ps, c :: cs => p == c && listStartsWith ps cs

/-- The scan of Rust `str::replace` for a nonempty pattern `p :: ps`:
replace each leftmost, non-overlapping occurrence by `rep`, never
rescanning the replacement text.  The `fuel` argument only makes the
recursion structural; every step consumes at least one character, so any
`fuel ≥ l.length` (the caller passes exactly `l.length`) yields the
untruncated scan. -/
def replaceAux (p : Char) (ps rep : List Char) : Nat → List Char → List Char
  | _, [] => []
  | 0, l => l
  | fuel + 1, c :: rest =>
    if listStartsWith (p :: ps) (c :: rest) then
      rep ++ replaceAux p ps rep fuel (rest.drop ps.length)
    else
      c :: replaceAux p ps rep fuel rest

/-- Rust `str::replace(pat, rep)` on the character list `s`.  The
template engine only calls it with patterns of the form `{key}`, which
are never empty, so the empty-pattern case never arises. -/
def rustReplace (pat rep s : List Char) : List Char :=
  match pat with
  | [] => s
  | p :: ps => replaceAux p ps rep s.length s

/-- Rust `String::replace(pat, rep)` on `s`. -/
def strReplace (s pat rep : String) : String :=
  ⟨rustReplace pat.data rep.data s.data⟩

/-- One iteration of the `for c in template.chars()` loop of
`process_template_placeholders`, on the state (`processed`, `key`): `{`
resets the key buffer, `}` replaces every occurrence of `{key}` in the
accumulated output by the resolved value (the key buffer is left as it
is), and any other character is pushed onto the key buffer. -/
def templateStep (track : Track) (st : String × String) (c : Char) :
    String × String :=
  if c = '{' then (st.1, "")
  else if c = '}' then
    (strReplace st.1 ("\x7b" ++ st.2 ++ "\x7d") (resolveKey track st.2), st.2)
  else (st.1, st.2.push c)

/-- `process_template_placeholders` (src/lib.rs): `processed` starts as a
clone of the template, the scan runs over the template's characters, and
the final `processed` is returned. -/
def process_template_placeholders (template : String) (track : Track) :
    String :=
  (template.data.foldl (templateStep track) (template, "")).1

/-- `s` contains neither `{` nor `}`. -/
def braceFree (s : String) : Bool :=
  s.data.all fun c => !(c == '{') && !(c == '}')

/-- A test environment whose track has one embedded picture and whose
filesystem refuses everything. -/
def envEmb : Env where
  readTag := fun _ => .ok [⟨[7, 7]⟩]
  newTempFile := .ok ⟨0⟩
  withContents := fun tf bytes => .ok ⟨tf.id + bytes.length⟩
  readDir := fun _ => .error ⟨1⟩
  parent := fun _ => none

/-- A test environment where both the tag read and every directory
listing fail. -/
def envErr : Env where
  readTag := fun _ => .error ⟨0⟩
  newTempFile := .ok ⟨0⟩
  withContents := fun tf _ => .ok tf
  readDir := fun _ => .error ⟨1⟩
  parent := fun _ => none

/-- A test environment with directories `/a/b` (empty) and `/a` (holding
`cover.jpg`), for exercising the upward search. -/
def envDirs : Env where
  readTag := fun _ => .error ⟨0⟩
  newTempFile := .ok ⟨0⟩
  withContents := fun tf _ => .ok tf
  readDir := fun d =>
    if d = "/a/b" then .ok []
    else if d = "/a" then .ok [⟨true, true, true, true, "cover.jpg", true, "/a/cover.jpg"⟩]
    else .error ⟨2⟩
  parent := fun d =>
    if d = "/a/b" then some "/a"
    else if d = "/a" then some "/"
    else none

/-- A concrete track for witnesses. -/
def sampleTrack : Track where
  name := "Photograph"
  metadata := [("artist", "Alex Goot"), ("album", "Alex Goot & Friends, Vol. 3"), ("tracknumber", "8")]

/-- C1: with `force_use_external_cover = false`, a successful embedded
extraction returning a picture's temp file makes `track_cover` return
`Embedded` with exactly that temp file, for every track path, hop budget
and `no_use_external_cover` value. -/
theorem track_cover_embedded_short_circuits (env : Env) (track_path : String)
    (max_depth : Nat) (no_ext : Bool) (tf : TempFile)
    (h : get_embedded_art env track_path = .ok (some tf)) :
    track_cover env track_path max_depth false no_ext = TrackCover.Embedded tf := by
  unfold track_cover
  rw [h]

/-- Witness for C1: a concrete environment whose tag holds one picture;
the hop budget and the `no_use_external_cover` flag are irrelevant. -/
theorem track_cover_embedded_short_circuits_witness :
    track_cover envEmb "track.mp3" 9 false true = TrackCover.Embedded ⟨2⟩ :=
  track_cover_embedded_short_circuits envEmb "track.mp3" 9 true ⟨2⟩ rfl

/-- C2: with `force_use_external_cover = true`, `track_cover` never
returns the `Embedded` variant, whatever the environment — including one
with embedded art — path, hop budget and `no_use_external_cover` flag. -/
theorem track_cover_force_never_embedded (env : Env) (track_path : String)
    (max_depth : Nat) (no_ext : Bool) :
    (track_cover env track_path max_depth true no_ext).isEmbedded = false := by
  unfold track_cover
  cases no_ext <;> cases h : search_for env track_path max_depth coverMatcher with
  | ok o => cases o <;> rfl
  | error e => rfl

/-- C3: for every input, `track_cover` returns exactly one of the three
`TrackCover` shapes, never an error (first conjunct); an I/O error during
embedded extraction makes resolution fall through to the external step
exactly as a miss would (second conjunct); and an I/O error during the
external search — whatever the embedded outcome, including `ok none` or
`force = true` — is treated as "not found", so the result is `Embedded`
when that branch fires and `TrackCover::None` otherwise (third
conjunct). -/
theorem track_cover_errors_fall_through (env : Env) (track_path : String)
    (max_depth : Nat) (force : Bool) (no_ext : Bool) :
    ((∃ tf, track_cover env track_path max_depth force no_ext =
        TrackCover.Embedded tf) ∨
      (∃ s, track_cover env track_path max_depth force no_ext =
        TrackCover.External s) ∨
      track_cover env track_path max_depth force no_ext = TrackCover.None) ∧
    (∀ e, get_embedded_art env track_path = .error e →
      track_cover env track_path max_depth force no_ext =
        if no_ext then TrackCover.None
        else
          match search_for env track_path max_depth coverMatcher with
          | .ok (some cover) => TrackCover.External cover
          | _ => TrackCover.None) ∧
    (∀ e, search_for env track_path max_depth coverMatcher = .error e →
      track_cover env track_path max_depth force no_ext =
        match force, get_embedded_art env track_path with
        | false, .ok (some cover) => TrackCover.Embedded cover
        | _, _ => TrackCover.None) := by
  refine ⟨?_, ?_, ?_⟩
  · cases h : track_cover env track_path max_depth force no_ext with
    | Embedded tf => exact Or.inl ⟨tf, rfl⟩
    | External s => exact Or.inr (Or.inl ⟨s, rfl⟩)
    | None => exact Or.inr (Or.inr rfl)
  · intro e h
    unfold track_cover
    rw [h]
    cases force <;> cases no_ext <;>
      cases hs : search_for env track_path max_depth coverMatcher <;> simp_all
    · rename_i o; cases o <;> rfl
    · rename_i o; cases o <;> rfl
  · intro e h
    unfold track_cover
    rw [h]
    cases force <;> cases hg : get_embedded_art env track_path <;>
      cases no_ext <;> rfl

/-- Witness for C3: tag read and directory listing both error; applying
the external-error conjunct, the result is `TrackCover::None`, not a
propagated error. -/
theorem track_cover_errors_fall_through_witness :
    track_cover envErr "track.mp3" 3 false false = TrackCover.None := by
  have h := (track_cover_errors_fall_through envErr "track.mp3" 3 false false).2.2
    ⟨1⟩ rfl
  rw [h]
  rfl

/-- C4: `track_cover` hands `search_for` the track file path itself, so
when listing that path as a directory fails (as it does for a regular
file), `search_for` returns that error, `track_cover` swallows it, and
the result is never `External`. -/
theorem track_cover_starts_at_file_no_external (env : Env) (track_path : String)
    (max_depth : Nat) (force : Bool) (no_ext : Bool) (e : IOError)
    (hd : env.readDir track_path = .error e) :
    search_for env track_path max_depth coverMatcher = .error e ∧
    (track_cover env track_path max_depth force no_ext).isExternal = false := by
  have hs : search env track_path coverMatcher = .error e := by
    unfold search
    rw [hd]
  have hsf : search_for env track_path max_depth coverMatcher = .error e := by
    unfold search_for
    rw [hs]
  refine ⟨hsf, ?_⟩
  unfold track_cover
  rw [hsf]
  cases force <;> cases no_ext <;>
    cases hg : get_embedded_art env track_path with
  | _ =>
    first
    | rfl
    | (rename_i o; cases o <;> rfl)

/-- Witness for C4: in `envErr` every directory listing fails, so the
upward search errors out and the cover is not `External`. -/
theorem track_cover_starts_at_file_no_external_witness :
    search_for envErr "song.mp3" 7 coverMatcher = .error ⟨1⟩ ∧
    (track_cover envErr "song.mp3" 7 false false).isExternal = false :=
  track_cover_starts_at_file_no_external envErr "song.mp3" 7 false false ⟨1⟩ rfl

/-- The list of inspected directories has at most `max_depth + 1`
elements. -/
theorem searchDirs_length_le (env : Env) (m : String → Bool) :
    ∀ (n : Nat) (dir : String), (searchDirs env dir n m).length ≤ n + 1 := by
  intro n
  induction n with
  | zero =>
    intro dir
    unfold searchDirs
    cases h : search env dir m with
    | error e => simp
    | ok o => cases o <;> simp
  | succ n ih =>
    intro dir
    unfold searchDirs
    cases h : search env dir m with
    | error e => simp
    | ok o =>
      cases o with
      | some p => simp
      | none =>
        cases hp : env.parent dir with
        | none => simp
        | some pd =>
          simpa using Nat.add_le_add_right (ih pd) 1

/-- With a zero hop budget, exactly the starting directory is
inspected. -/
theorem searchDirs_zero (env : Env) (dir : String) (m : String → Bool) :
    searchDirs env dir 0 m = [dir] := by
  unfold searchDirs
  cases h : search env dir m with
  | error e => rfl
  | ok o => cases o <;> rfl

/-- The first inspected directory is the starting one. -/
theorem searchDirs_getD_zero (env : Env) (dir : String) (n : Nat) (m : String → Bool) :
    (searchDirs env dir n m).getD 0 "" = dir := by
  unfold searchDirs
  rw [List.getD_cons_zero]

/-- Stepping the inspection list: no match here, positive budget, parent
present. -/
theorem searchDirs_succ (env : Env) (dir pd : String) (d : Nat) (m : String → Bool)
    (h0 : search env dir m = .ok none) (hp : env.parent dir = some pd) :
    searchDirs env dir (d + 1) m = dir :: searchDirs env pd d m := by
  conv_lhs => unfold searchDirs
  rw [h0, hp]

/-- Stepping the inspection list: no match here and no parent. -/
theorem searchDirs_succ_root (env : Env) (dir : String) (d : Nat) (m : String → Bool)
    (h0 : search env dir m = .ok none) (hp : env.parent dir = none) :
    searchDirs env dir (d + 1) m = [dir] := by
  conv_lhs => unfold searchDirs
  rw [h0, hp]

/-- If every directory inspected before position `i` yields no match and
the one at position `i` yields `path`, then `search_for` returns
`path`: the first match at the shallowest inspected level wins. -/
theorem search_for_first_match (env : Env) (m : String → Bool) :
    ∀ (n : Nat) (dir : String) (i : Nat) (p : String),
      i < (searchDirs env dir n m).length →
      (∀ j, j < i → search env ((searchDirs env dir n m).getD j "") m = .ok none) →
      search env ((searchDirs env dir n m).getD i "") m = .ok (some p) →
      search_for env dir n m = .ok (some p) := by
  intro n
  induction n with
  | zero =>
    intro dir i p hi _ hm
    rw [searchDirs_zero] at hi hm
    have hi0 : i = 0 := by
      simp only [List.length_singleton] at hi
      omega
    subst hi0
    rw [List.getD_cons_zero] at hm
    unfold search_for
    rw [hm]
  | succ n ih =>
    intro dir i p hi hnone hm
    cases i with
    | zero =>
      rw [searchDirs_getD_zero] at hm
      unfold search_for
      rw [hm]
    | succ j =>
      have h0 : search env dir m = .ok none := by
        have h := hnone 0 (Nat.succ_pos j)
        rwa [searchDirs_getD_zero] at h
      cases hp : env.parent dir with
      | none =>
        rw [searchDirs_succ_root env dir n m h0 hp] at hi
        simp only [List.length_singleton] at hi
        omega
      | some pd =>
        rw [searchDirs_succ env dir pd n m h0 hp] at hi hnone hm
        rw [List.length_cons, Nat.succ_lt_succ_iff] at hi
        rw [List.getD_cons_succ] at hm
        have hrec := ih pd j p hi
          (fun j' hj' => by
            have h := hnone (j' + 1) (Nat.succ_lt_succ hj')
            rwa [List.getD_cons_succ] at h)
          hm
        conv_lhs => unfold search_for
        rw [h0, hp]
        exact hrec

/-- C6: `search_for` climbing at most `n` hops inspects at most `n + 1`
directories; with a zero budget it inspects exactly the starting
directory; and it returns the first match found at the shallowest
inspected level that contains one. -/
theorem search_for_shallowest (env : Env) (m : String → Bool) (n : Nat) (dir : String) :
    (searchDirs env dir n m).length ≤ n + 1 ∧
    searchDirs env dir 0 m = [dir] ∧
    ∀ i p, i < (searchDirs env dir n m).length →
      (∀ j, j < i → search env ((searchDirs env dir n m).getD j "") m = .ok none) →
      search env ((searchDirs env dir n m).getD i "") m = .ok (some p) →
      search_for env dir n m = .ok (some p) :=
  ⟨searchDirs_length_le env m n dir, searchDirs_zero env dir m,
    fun i p hi hnone hm => search_for_first_match env m n dir i p hi hnone hm⟩

/-- Witness for C6: starting at `/a/b` with one hop, the inspected
directories are `/a/b` then `/a`; `/a/b` is empty and `/a` holds
`cover.jpg`, which the search returns. -/
theorem search_for_shallowest_witness :
    search_for envDirs "/a/b" 1 coverMatcher = .ok (some "/a/cover.jpg") :=
  (search_for_shallowest envDirs coverMatcher 1 "/a/b").2.2 1 "/a/cover.jpg"
    (by norm_num [searchDirs, search, envDirs, searchEntries])
    (fun j hj => by
      cases j with
      | zero => rfl
      | succ j => omega)
    rfl

/-- Unfolding the `String` constructor. -/
theorem mk_data (l : List Char) : (⟨l⟩ : String).data = l :=
  rfl

/-- `String.push` appends one character to the data. -/
theorem push_mk (s : String) (c : Char) : s.push c = ⟨s.data ++ [c]⟩ := by
  cases s
  rfl

/-- A list starts with itself followed by anything. -/
theorem listStartsWith_append_self (pat l : List Char) :
    listStartsWith pat (pat ++ l) = true := by
  induction pat with
  | nil => rfl
  | cons p ps ih => simp [listStartsWith, ih]

/-- Characters of a matched pattern occur in the matched text. -/
theorem mem_of_listStartsWith {pat l : List Char} {c : Char}
    (h : listStartsWith pat l = true) (hc : c ∈ pat) : c ∈ l := by
  induction pat generalizing l with
  | nil => simp at hc
  | cons q qs ih =>
    cases l with
    | nil => simp [listStartsWith] at h
    | cons d ds =>
      simp only [listStartsWith, Bool.and_eq_true, beq_iff_eq] at h
      rcases List.mem_cons.mp hc with rfl | hc
      · rw [h.1]
        exact List.mem_cons_self d ds
      · exact List.mem_cons_of_mem d (ih h.2 hc)

/-- A pattern whose head differs does not start here. -/
theorem listStartsWith_cons_ne {p c : Char} (ps l : List Char) (h : p ≠ c) :
    listStartsWith (p :: ps) (c :: l) = false := by
  simp [listStartsWith, h]

/-- Any fuel at least the length of the scanned list yields the same
replacement result. -/
theorem replaceAux_fuel (p : Char) (ps rep : List Char) :
    ∀ (f1 : Nat) (l : List Char) (f2 : Nat), l.length ≤ f1 → l.length ≤ f2 →
      replaceAux p ps rep f1 l = replaceAux p ps rep f2 l := by
  intro f1
  induction f1 with
  | zero =>
    intro l f2 h1 _
    have hl : l = [] := List.eq_nil_of_length_eq_zero (Nat.le_zero.mp h1)
    subst hl
    cases f2 <;> rfl
  | succ f1 ih =>
    intro l f2 h1 h2
    cases l with
    | nil => cases f2 <;> rfl
    | cons c rest =>
      cases f2 with
      | zero => simp at h2
      | succ f2 =>
        simp only [replaceAux]
        by_cases hs : listStartsWith (p :: ps) (c :: rest) = true
        · rw [if_pos hs, if_pos hs]
          have hlen : (rest.drop ps.length).length ≤ rest.length := by
            rw [List.length_drop]
            omega
          simp only [List.length_cons, Nat.succ_le_succ_iff] at h1 h2
          rw [ih (rest.drop ps.length) f2 (le_trans hlen h1) (le_trans hlen h2)]
        · rw [if_neg hs, if_neg hs]
          simp only [List.length_cons, Nat.succ_le_succ_iff] at h1 h2
          rw [ih rest f2 h1 h2]

/-- Normalize the fuel to the scanned list's length. -/
theorem replaceAux_to_length (p : Char) (ps rep : List Char) (f : Nat) (l : List Char)
    (h : l.length ≤ f) : replaceAux p ps rep f l = replaceAux p ps rep l.length l :=
  replaceAux_fuel p ps rep f l l.length h (Nat.le_refl _)

/-- Fueled version of the skip lemma: the scan passes over text free of
the pattern's head character. -/
theorem replaceAux_skip (p : Char) (ps rep : List Char) :
    ∀ (xs : List Char), p ∉ xs → ∀ (f : Nat) (l : List Char),
      (xs ++ l).length ≤ f →
      replaceAux p ps rep f (xs ++ l) = xs ++ replaceAux p ps rep l.length l := by
  intro xs
  induction xs with
  | nil =>
    intro _ f l h
    simpa using replaceAux_to_length p ps rep f l (by simpa using h)
  | cons c xs ih =>
    intro hmem f l h
    simp only [List.mem_cons, not_or] at hmem
    obtain ⟨hc, hxs⟩ := hmem
    cases f with
    | zero => simp at h
    | succ f =>
      simp only [List.cons_append, replaceAux]
      have hcond : ¬ (listStartsWith (p :: ps) (c :: (xs ++ l)) = true) := by
        rw [listStartsWith_cons_ne ps (xs ++ l) hc]
        simp
      have hlen : (xs ++ l).length ≤ f := by
        simp only [List.cons_append, List.length_cons] at h
        omega
      split
      · rename_i hx
        exact absurd hx hcond
      · exact congrArg (List.cons c) (ih hxs f l hlen)

/-- The replacement scan passes over text free of the pattern's head
character. -/
theorem rustReplace_skip {p : Char} {xs : List Char} (ps rep : List Char)
    (hmem : p ∉ xs) (l : List Char) :
    rustReplace (p :: ps) rep (xs ++ l) = xs ++ rustReplace (p :: ps) rep l := by
  unfold rustReplace
  exact replaceAux_skip p ps rep xs hmem (xs ++ l).length l (Nat.le_refl _)

/-- Fueled version of the match lemma: a pattern occurrence at the front
is replaced and the scan resumes after it, never rescanning `rep`. -/
theorem replaceAux_head_match (p : Char) (ps rep : List Char) (f : Nat) (l : List Char)
    (h : ((p :: ps) ++ l).length ≤ f) :
    replaceAux p ps rep f ((p :: ps) ++ l) = rep ++ replaceAux p ps rep l.length l := by
  cases f with
  | zero => simp at h
  | succ f =>
    simp only [List.cons_append, replaceAux]
    have hcond : listStartsWith (p :: ps) (p :: (ps ++ l)) = true := by
      have hx := listStartsWith_append_self (p :: ps) l
      simpa using hx
    have hlen : l.length ≤ f := by
      simp only [List.cons_append, List.length_cons, List.length_append] at h
      omega
    have hdrop : List.drop ps.length (ps ++ l) = l := List.drop_left ps l
    split
    · calc rep ++ replaceAux p ps rep f (List.drop ps.length (ps ++ l))
          = rep ++ replaceAux p ps rep f l := by rw [hdrop]
        _ = rep ++ replaceAux p ps rep l.length l := by
            rw [replaceAux_to_length p ps rep f l hlen]
    · rename_i hx
      exact absurd hcond hx

/-- A pattern occurrence at the front is replaced and the scan resumes
after it. -/
theorem rustReplace_head (p : Char) (ps rep l : List Char) :
    rustReplace (p :: ps) rep ((p :: ps) ++ l) = rep ++ rustReplace (p :: ps) rep l := by
  unfold rustReplace
  exact replaceAux_head_match p ps rep ((p :: ps) ++ l).length l (Nat.le_refl _)

/-- Fueled no-occurrence lemma: if some character of the pattern does not
occur in the text, nothing is replaced. -/
theorem replaceAux_no_occ (p : Char) (ps rep : List Char) {c0 : Char}
    (hc : c0 ∈ p :: ps) :
    ∀ (l : List Char) (f : Nat), l.length ≤ f → c0 ∉ l →
      replaceAux p ps rep f l = l := by
  intro l
  induction l with
  | nil =>
    intro f _ _
    cases f <;> rfl
  | cons c rest ih =>
    intro f h hmem
    simp only [List.mem_cons, not_or] at hmem
    obtain ⟨hne, hrest⟩ := hmem
    cases f with
    | zero => simp at h
    | succ f =>
      simp only [replaceAux]
      have hcond : ¬ (listStartsWith (p :: ps) (c :: rest) = true) := by
        intro hx
        exact absurd (mem_of_listStartsWith hx hc) (by simp [hne, hrest])
      rw [if_neg hcond]
      have hlen : rest.length ≤ f := by
        simp only [List.length_cons] at h
        omega
      rw [ih f hlen hrest]

/-- If some character of the pattern does not occur in the text, nothing
is replaced. -/
theorem rustReplace_no_occ {p : Char} {ps : List Char} (rep : List Char) {c0 : Char}
    (hc : c0 ∈ p :: ps) {l : List Char} (hl : c0 ∉ l) :
    rustReplace (p :: ps) rep l = l := by
  unfold rustReplace
  exact replaceAux_no_occ p ps rep hc l l.length (Nat.le_refl _) hl

/-- Replacing the whole text when it equals the (nonempty) pattern gives
exactly the replacement. -/
theorem rustReplace_self (p : Char) (ps rep : List Char) :
    rustReplace (p :: ps) rep (p :: ps) = rep := by
  have h := rustReplace_head p ps rep []
  rw [show rustReplace (p :: ps) rep [] = [] from rfl, List.append_nil, List.append_nil] at h
  exact h

/-- `{` resets the key buffer. -/
theorem templateStep_open (track : Track) (st : String × String) :
    templateStep track st '{' = (st.1, "") :=
  rfl

/-- `}` substitutes the current key in the accumulated output and leaves
the key buffer alone. -/
theorem templateStep_close (track : Track) (st : String × String) :
    templateStep track st '}' =
      (strReplace st.1 ("\x7b" ++ st.2 ++ "\x7d") (resolveKey track st.2), st.2) :=
  rfl

/-- Any other character is pushed onto the key buffer. -/
theorem templateStep_other (track : Track) (st : String × String) {c : Char}
    (h1 : c ≠ '{') (h2 : c ≠ '}') :
    templateStep track st c = (st.1, st.2.push c) := by
  simp [templateStep, h1, h2]

/-- Scanning brace-free characters leaves the output untouched and
appends them to the key buffer. -/
theorem foldl_templateStep_pass (track : Track) :
    ∀ (l : List Char) (pr : String) (key : List Char),
      (∀ c ∈ l, c ≠ '{' ∧ c ≠ '}') →
      List.foldl (templateStep track) (pr, ⟨key⟩) l = (pr, ⟨key ++ l⟩) := by
  intro l
  induction l with
  | nil =>
    intro pr key _
    rw [List.append_nil]
    rfl
  | cons c rest ih =>
    intro pr key hall
    obtain ⟨h1, h2⟩ := hall c (List.mem_cons_self c rest)
    rw [List.foldl_cons, templateStep_other track _ h1 h2, push_mk, mk_data]
    rw [ih pr (key ++ [c]) (fun c' hc' => hall c' (List.mem_cons_of_mem c hc'))]
    simp [List.append_assoc]

/-- A brace-free string has no `{` and no `}` among its characters. -/
theorem braceFree_chars {s : String} (h : braceFree s = true) :
    ∀ c ∈ s.data, c ≠ '{' ∧ c ≠ '}' := by
  intro c hc
  rw [braceFree, List.all_eq_true] at h
  have hx := h c hc
  simp only [Bool.and_eq_true, Bool.not_eq_true', beq_eq_false_iff_ne] at hx
  exact hx

/-- A brace-free string does not contain `{`. -/
theorem braceFree_no_open {s : String} (h : braceFree s = true) : '{' ∉ s.data :=
  fun hc => (braceFree_chars h _ hc).1 rfl

/-- A brace-free string does not contain `}`. -/
theorem braceFree_no_close {s : String} (h : braceFree s = true) : '}' ∉ s.data :=
  fun hc => (braceFree_chars h _ hc).2 rfl

/-- C5: rendering the single-placeholder template `{k}` for a brace-free
key `k` yields the display name when `k` is `title`, the metadata value
bound to `k` otherwise, and the empty string when `k` is absent from the
metadata mapping. -/
theorem process_single_placeholder (track : Track) (k : String)
    (hk : braceFree k = true) :
    process_template_placeholders ("\x7b" ++ k ++ "\x7d") track =
      if k = "title" then track.get_name else (track.metadataGet k).getD "" := by
  obtain ⟨kl⟩ := k
  have hT : ("\x7b" ++ (⟨kl⟩ : String) ++ "\x7d") = ⟨'{' :: (kl ++ ['}'])⟩ := by
    apply String.ext
    simp [String.data_append]
  unfold process_template_placeholders
  rw [hT, mk_data, List.foldl_cons]
  have hopen : templateStep track (⟨'{' :: (kl ++ ['}'])⟩, "") '{' =
      ((⟨'{' :: (kl ++ ['}'])⟩ : String), (⟨[]⟩ : String)) :=
    rfl
  rw [hopen, List.foldl_append]
  rw [foldl_templateStep_pass track kl _ [] (braceFree_chars hk)]
  rw [show ([] : List Char) ++ kl = kl from rfl]
  rw [show (['}'] : List Char) = '}' :: [] from rfl, List.foldl_cons]
  rw [templateStep_close track _]
  rw [List.foldl_nil]
  have hrepl : strReplace ⟨'{' :: (kl ++ ['}'])⟩ ("\x7b" ++ (⟨kl⟩ : String) ++ "\x7d")
      (resolveKey track ⟨kl⟩) = resolveKey track ⟨kl⟩ := by
    rw [hT]
    apply String.ext
    unfold strReplace
    rw [mk_data, mk_data, mk_data]
    exact rustReplace_self '{' (kl ++ ['}']) (resolveKey track ⟨kl⟩).data
  show strReplace ⟨'{' :: (kl ++ ['}'])⟩ ("\x7b" ++ (⟨kl⟩ : String) ++ "\x7d")
      (resolveKey track ⟨kl⟩) = _
  rw [hrepl]
  rfl

/-- Witness for C5: rendering `{artist}` against the sample track yields
its artist metadata value. -/
theorem process_single_placeholder_witness :
    process_template_placeholders ("\x7b" ++ "artist" ++ "\x7d") sampleTrack =
      if "artist" = "title" then sampleTrack.get_name
      else (sampleTrack.metadataGet "artist").getD "" :=
  process_single_placeholder sampleTrack "artist" (by decide)

/-- Scanning a full placeholder `{kl}` (brace-free key) performs one
substitution on the accumulated output and leaves `kl` in the key
buffer. -/
theorem foldl_scan_placeholder (track : Track) (kl : List Char)
    (hk : ∀ c ∈ kl, c ≠ '{' ∧ c ≠ '}') (pr key0 : String) (rest : List Char) :
    List.foldl (templateStep track) (pr, key0) ('{' :: (kl ++ ('}' :: rest))) =
      List.foldl (templateStep track)
        (strReplace pr ("\x7b" ++ (⟨kl⟩ : String) ++ "\x7d") (resolveKey track ⟨kl⟩), ⟨kl⟩)
        rest := by
  rw [List.foldl_cons, templateStep_open]
  rw [show (kl ++ ('}' :: rest)) = kl ++ (['}'] ++ rest) from rfl]
  rw [← List.append_assoc, List.foldl_append]
  rw [show ("" : String) = (⟨[]⟩ : String) from rfl]
  rw [List.foldl_append, foldl_templateStep_pass track kl pr [] hk]
  rw [List.nil_append, List.foldl_cons, templateStep_close track _]
  rfl

/-- Replacing a pattern that occurs twice around head-free filler text
substitutes both occurrences in one scan. -/
theorem rustReplace_around (p : Char) (ps rep xs ys : List Char)
    (hx : p ∉ xs) (hy : p ∉ ys) :
    rustReplace (p :: ps) rep (((xs ++ (p :: ps)) ++ ys) ++ (p :: ps)) =
      ((xs ++ rep) ++ ys) ++ rep := by
  calc rustReplace (p :: ps) rep (((xs ++ (p :: ps)) ++ ys) ++ (p :: ps))
      = rustReplace (p :: ps) rep
          (xs ++ ((p :: ps) ++ (ys ++ ((p :: ps) ++ [])))) := by
        congr 1
        simp
    _ = xs ++ rustReplace (p :: ps) rep ((p :: ps) ++ (ys ++ ((p :: ps) ++ []))) :=
        rustReplace_skip ps rep hx _
    _ = xs ++ (rep ++ rustReplace (p :: ps) rep (ys ++ ((p :: ps) ++ []))) := by
        rw [rustReplace_head]
    _ = xs ++ (rep ++ (ys ++ rustReplace (p :: ps) rep ((p :: ps) ++ []))) := by
        rw [rustReplace_skip ps rep hy _]
    _ = xs ++ (rep ++ (ys ++ (rep ++ rustReplace (p :: ps) rep []))) := by
        rw [rustReplace_head]
    _ = xs ++ (rep ++ (ys ++ (rep ++ []))) := rfl
    _ = ((xs ++ rep) ++ ys) ++ rep := by simp

/-- Replacing a pattern equal to the whole first half of a doubled text
substitutes both halves in one scan. -/
theorem rustReplace_twice (p : Char) (ps rep : List Char) :
    rustReplace (p :: ps) rep ((p :: ps) ++ (p :: ps)) = rep ++ rep := by
  rw [rustReplace_head, rustReplace_self]

/-- C7: substitutions rewrite the single accumulating output buffer, so a
value containing the literal text `{b}` — substituted for `{a}` earlier in
the scan — is itself rewritten when `}` closes the `b` placeholder. -/
theorem process_accumulating_buffer (nm u w vb : String)
    (hu : braceFree u = true) (hw : braceFree w = true) :
    process_template_placeholders "{a}{b}"
        ⟨nm, [("a", u ++ "{b}" ++ w), ("b", vb)]⟩ =
      u ++ vb ++ w ++ vb := by
  have hva : resolveKey ⟨nm, [("a", u ++ "{b}" ++ w), ("b", vb)]⟩ ⟨['a']⟩ =
      u ++ "{b}" ++ w := rfl
  have hvb : resolveKey ⟨nm, [("a", u ++ "{b}" ++ w), ("b", vb)]⟩ ⟨['b']⟩ = vb := rfl
  unfold process_template_placeholders
  rw [show ("{a}{b}" : String).data =
    '{' :: (['a'] ++ ('}' :: ('{' :: (['b'] ++ ('}' :: []))))) from rfl]
  rw [foldl_scan_placeholder _ ['a'] (by decide) _ _ _]
  rw [foldl_scan_placeholder _ ['b'] (by decide) _ _ _]
  rw [List.foldl_nil]
  show strReplace
      (strReplace "{a}{b}" ("\x7b" ++ (⟨['a']⟩ : String) ++ "\x7d")
        (resolveKey ⟨nm, [("a", u ++ "{b}" ++ w), ("b", vb)]⟩ ⟨['a']⟩))
      ("\x7b" ++ (⟨['b']⟩ : String) ++ "\x7d")
      (resolveKey ⟨nm, [("a", u ++ "{b}" ++ w), ("b", vb)]⟩ ⟨['b']⟩) =
    u ++ vb ++ w ++ vb
  rw [hva, hvb]
  have h1 : strReplace "{a}{b}" ("\x7b" ++ (⟨['a']⟩ : String) ++ "\x7d")
      (u ++ "{b}" ++ w) = ⟨(u ++ "{b}" ++ w).data ++ ['{', 'b', '}']⟩ := by
    apply String.ext
    unfold strReplace
    rw [mk_data]
    rw [show ("\x7b" ++ (⟨['a']⟩ : String) ++ "\x7d").data = '{' :: ['a', '}'] from rfl]
    rw [show ("{a}{b}" : String).data =
      ('{' :: ['a', '}']) ++ ['{', 'b', '}'] from rfl]
    rw [rustReplace_head]
    rw [rustReplace_no_occ _ (show 'a' ∈ '{' :: ['a', '}'] by decide)
      (show 'a' ∉ ['{', 'b', '}'] by decide)]
  rw [h1]
  apply String.ext
  unfold strReplace
  rw [mk_data, mk_data]
  rw [show ("\x7b" ++ (⟨['b']⟩ : String) ++ "\x7d").data = '{' :: ['b', '}'] from rfl]
  have hbuf : (u ++ "{b}" ++ w).data ++ ['{', 'b', '}'] =
      ((u.data ++ ('{' :: ['b', '}'])) ++ w.data) ++ ('{' :: ['b', '}']) := by
    simp [String.data_append]
  rw [hbuf]
  rw [rustReplace_around '{' ['b', '}'] vb.data u.data w.data
    (braceFree_no_open hu) (braceFree_no_open hw)]
  simp [String.data_append]

/-- Witness for C7: with `a ↦ "X{b}Y"` and `b ↦ "V"`, rendering `{a}{b}`
yields `XVYV`: the `{b}` inside the substituted value was rewritten. -/
theorem process_accumulating_buffer_witness :
    process_template_placeholders "{a}{b}"
        ⟨"N", [("a", "X" ++ "{b}" ++ "Y"), ("b", "V")]⟩ =
      "X" ++ "V" ++ "Y" ++ "V" :=
  process_accumulating_buffer "N" "X" "Y" "V" (by decide) (by decide)

/-- C8: an unterminated `{` leaves the dangling literal text untouched
(first conjunct: `{x}` is substituted but the trailing `{k` survives
verbatim), and an unmatched `}` closes on the current key buffer — the
empty string when no `{` was ever opened — substituting the literal `{}`
occurrence later in the buffer (second conjunct). -/
theorem process_unmatched_braces (track : Track) (x k u : String)
    (hx : braceFree x = true) (hk : braceFree k = true) (hu : braceFree u = true)
    (hv : '{' ∉ (resolveKey track "").data) :
    process_template_placeholders ("\x7b" ++ x ++ "\x7d" ++ "\x7b" ++ k) track =
      resolveKey track x ++ "\x7b" ++ k ∧
    process_template_placeholders ("\x7d" ++ u ++ "{}") track =
      "\x7d" ++ u ++ resolveKey track "" := by
  obtain ⟨xl⟩ := x
  obtain ⟨kl⟩ := k
  obtain ⟨ul⟩ := u
  constructor
  · have hd1 : ("\x7b" ++ (⟨xl⟩ : String) ++ "\x7d" ++ "\x7b" ++ (⟨kl⟩ : String)).data =
        '{' :: (xl ++ ('}' :: ('{' :: kl))) := by
      simp [String.data_append]
    unfold process_template_placeholders
    rw [hd1]
    rw [foldl_scan_placeholder track xl (braceFree_chars hx) _ _ ('{' :: kl)]
    rw [List.foldl_cons, templateStep_open]
    rw [show ("" : String) = (⟨[]⟩ : String) from rfl]
    rw [foldl_templateStep_pass track kl _ [] (braceFree_chars hk)]
    show strReplace ("\x7b" ++ (⟨xl⟩ : String) ++ "\x7d" ++ "\x7b" ++ (⟨kl⟩ : String))
        ("\x7b" ++ (⟨xl⟩ : String) ++ "\x7d") (resolveKey track ⟨xl⟩) =
      resolveKey track ⟨xl⟩ ++ "\x7b" ++ (⟨kl⟩ : String)
    apply String.ext
    unfold strReplace
    rw [mk_data]
    have hpat : ("\x7b" ++ (⟨xl⟩ : String) ++ "\x7d").data = '{' :: (xl ++ ['}']) := by
      simp [String.data_append]
    rw [hpat, hd1]
    have hshape : '{' :: (xl ++ ('}' :: ('{' :: kl))) =
        ('{' :: (xl ++ ['}'])) ++ ('{' :: kl) := by
      simp
    rw [hshape, rustReplace_head]
    rw [rustReplace_no_occ _
      (show '}' ∈ '{' :: (xl ++ ['}']) by simp)
      (show '}' ∉ '{' :: kl by simp [braceFree_no_close hk])]
    simp [String.data_append]
  · have hd2 : (("\x7d" ++ (⟨ul⟩ : String) ++ "{}")).data = '}' :: (ul ++ ['{', '}']) := by
      simp [String.data_append]
    have hv0 : '{' ∉ ('}' :: (ul ++ (resolveKey track "").data)) := by
      simp only [List.mem_cons, List.mem_append, not_or]
      exact ⟨by decide, braceFree_no_open hu, hv⟩
    have hstep1 : strReplace ("\x7d" ++ (⟨ul⟩ : String) ++ "{}")
        ("\x7b" ++ ("" : String) ++ "\x7d") (resolveKey track "") =
        ⟨'}' :: (ul ++ (resolveKey track "").data)⟩ := by
      apply String.ext
      unfold strReplace
      rw [mk_data]
      rw [show ("\x7b" ++ ("" : String) ++ "\x7d").data = '{' :: ['}'] from rfl]
      rw [hd2]
      have hshape : '}' :: (ul ++ ['{', '}']) =
          ('}' :: ul) ++ (('{' :: ['}']) ++ []) := by
        simp
      rw [hshape]
      rw [rustReplace_skip ['}'] (resolveKey track "").data
        (show '{' ∉ '}' :: ul by simp [braceFree_no_open hu]) _]
      rw [rustReplace_head]
      rw [show rustReplace ['{', '}'] (resolveKey track "").data [] = [] from rfl]
      simp
    unfold process_template_placeholders
    rw [hd2, List.foldl_cons, templateStep_close track _]
    rw [hstep1]
    rw [List.foldl_append]
    rw [show ("" : String) = (⟨[]⟩ : String) from rfl]
    rw [foldl_templateStep_pass track ul _ [] (braceFree_chars hu)]
    rw [show (['{', '}'] : List Char) = '{' :: ('}' :: []) from rfl]
    rw [List.foldl_cons, templateStep_open, List.foldl_cons, templateStep_close track _,
      List.foldl_nil]
    show strReplace ⟨'}' :: (ul ++ (resolveKey track "").data)⟩
        ("\x7b" ++ ("" : String) ++ "\x7d") (resolveKey track "") =
      "\x7d" ++ (⟨ul⟩ : String) ++ resolveKey track ""
    apply String.ext
    unfold strReplace
    rw [mk_data, mk_data]
    rw [show ("\x7b" ++ ("" : String) ++ "\x7d").data = '{' :: ['}'] from rfl]
    rw [rustReplace_no_occ _ (show '{' ∈ '{' :: ['}'] by decide) hv0]
    simp [String.data_append]

/-- Witness for C8: against the sample track, `{artist}{k` renders with
the dangling `{k` untouched and `}u{}` substitutes the empty-key
placeholder. -/
theorem process_unmatched_braces_witness :
    process_template_placeholders ("\x7b" ++ "artist" ++ "\x7d" ++ "\x7b" ++ "k") sampleTrack =
      resolveKey sampleTrack "artist" ++ "\x7b" ++ "k" ∧
    process_template_placeholders ("\x7d" ++ "u" ++ "{}") sampleTrack =
      "\x7d" ++ "u" ++ resolveKey sampleTrack "" :=
  process_unmatched_braces sampleTrack "artist" "k" "u"
    (by decide) (by decide) (by decide) (by decide)

/-- C9: a closing brace substitutes every occurrence of `{key}` in the
whole buffer, including ones later in the template: after scanning only
the first `{k}` of `{k}{k}`, both occurrences are already replaced, and
the second closing brace is a no-op. -/
theorem process_replaces_all_occurrences (track : Track) (k : String)
    (hk : braceFree k = true) (hv : '{' ∉ (resolveKey track k).data) :
    List.foldl (templateStep track)
        ("\x7b" ++ k ++ "\x7d" ++ "\x7b" ++ k ++ "\x7d", "") ('{' :: (k.data ++ ['}'])) =
      (resolveKey track k ++ resolveKey track k, k) ∧
    process_template_placeholders ("\x7b" ++ k ++ "\x7d" ++ "\x7b" ++ k ++ "\x7d") track =
      resolveKey track k ++ resolveKey track k := by
  obtain ⟨kl⟩ := k
  have hpat : ("\x7b" ++ (⟨kl⟩ : String) ++ "\x7d").data = '{' :: (kl ++ ['}']) := by
    simp [String.data_append]
  have hT : ("\x7b" ++ (⟨kl⟩ : String) ++ "\x7d" ++ "\x7b" ++ (⟨kl⟩ : String) ++ "\x7d").data =
      ('{' :: (kl ++ ['}'])) ++ ('{' :: (kl ++ ['}'])) := by
    simp [String.data_append]
  have hrep : strReplace ("\x7b" ++ (⟨kl⟩ : String) ++ "\x7d" ++ "\x7b" ++ (⟨kl⟩ : String) ++ "\x7d")
      ("\x7b" ++ (⟨kl⟩ : String) ++ "\x7d") (resolveKey track ⟨kl⟩) =
      resolveKey track ⟨kl⟩ ++ resolveKey track ⟨kl⟩ := by
    apply String.ext
    unfold strReplace
    rw [mk_data, hpat, hT, rustReplace_twice]
    simp [String.data_append]
  have hfirst : List.foldl (templateStep track)
      ("\x7b" ++ (⟨kl⟩ : String) ++ "\x7d" ++ "\x7b" ++ (⟨kl⟩ : String) ++ "\x7d", "")
      ('{' :: ((⟨kl⟩ : String).data ++ ['}'])) =
      (resolveKey track ⟨kl⟩ ++ resolveKey track ⟨kl⟩, (⟨kl⟩ : String)) := by
    rw [mk_data]
    rw [show (kl ++ ['}']) = kl ++ ('}' :: []) from rfl]
    rw [foldl_scan_placeholder track kl (braceFree_chars hk) _ _ []]
    rw [List.foldl_nil, hrep]
  refine ⟨hfirst, ?_⟩
  unfold process_template_placeholders
  rw [show ("\x7b" ++ (⟨kl⟩ : String) ++ "\x7d" ++ "\x7b" ++ (⟨kl⟩ : String) ++ "\x7d").data =
    '{' :: (kl ++ ('}' :: ('{' :: (kl ++ ('}' :: []))))) from by simp [String.data_append]]
  rw [foldl_scan_placeholder track kl (braceFree_chars hk) _ _ _]
  rw [hrep]
  rw [foldl_scan_placeholder track kl (braceFree_chars hk) _ _ []]
  rw [List.foldl_nil]
  show strReplace (resolveKey track ⟨kl⟩ ++ resolveKey track ⟨kl⟩)
      ("\x7b" ++ (⟨kl⟩ : String) ++ "\x7d") (resolveKey track ⟨kl⟩) = _
  apply String.ext
  unfold strReplace
  rw [mk_data, hpat]
  rw [rustReplace_no_occ _ (show '{' ∈ '{' :: (kl ++ ['}']) by simp)
    (show '{' ∉ (resolveKey track ⟨kl⟩ ++ resolveKey track ⟨kl⟩).data by
      simp only [String.data_append, List.mem_append, not_or]
      exact ⟨hv, hv⟩)]

/-- Witness for C9: rendering `{artist}{artist}` against the sample track
substitutes both occurrences at the first closing brace. -/
theorem process_replaces_all_occurrences_witness :
    List.foldl (templateStep sampleTrack)
        ("\x7b" ++ "artist" ++ "\x7d" ++ "\x7b" ++ "artist" ++ "\x7d", "")
        ('{' :: (("artist" : String).data ++ ['}'])) =
      (resolveKey sampleTrack "artist" ++ resolveKey sampleTrack "artist", "artist") ∧
    process_template_placeholders
        ("\x7b" ++ "artist" ++ "\x7d" ++ "\x7b" ++ "artist" ++ "\x7d") sampleTrack =
      resolveKey sampleTrack "artist" ++ resolveKey sampleTrack "artist" :=
  process_replaces_all_occurrences sampleTrack "artist" (by decide) (by decide)

/-- C10: the key buffer is not cleared when `}` substitutes — only `{`
resets it — so in `{a}b}` the second `}` substitutes occurrences of
`{ab}` (here one such occurrence sits inside the value substituted for
`{a}`), not `{a}` or `{}`. -/
theorem process_key_not_cleared (nm w : String) :
    process_template_placeholders "\x7ba\x7db\x7d" ⟨nm, [("a", "x{ab}"), ("ab", w)]⟩ =
      "x" ++ w ++ "b\x7d" := by
  have hva : resolveKey ⟨nm, [("a", "x{ab}"), ("ab", w)]⟩ ⟨['a']⟩ = "x{ab}" := rfl
  have hvab : resolveKey ⟨nm, [("a", "x{ab}"), ("ab", w)]⟩ ⟨['a', 'b']⟩ = w := rfl
  have h1 : strReplace "\x7ba\x7db\x7d" ("\x7b" ++ (⟨['a']⟩ : String) ++ "\x7d") "x{ab}" =
      ⟨['x', '{', 'a', 'b', '}', 'b', '}']⟩ := by decide
  unfold process_template_placeholders
  rw [show ("\x7ba\x7db\x7d" : String).data =
    '{' :: (['a'] ++ ('}' :: ('b' :: ('}' :: [])))) from rfl]
  rw [foldl_scan_placeholder _ ['a'] (by decide) _ _ _]
  rw [hva, h1]
  rw [List.foldl_cons,
    templateStep_other _ _ (show 'b' ≠ '{' by decide) (show 'b' ≠ '}' by decide)]
  rw [push_mk, mk_data]
  rw [show (['a'] ++ ['b'] : List Char) = ['a', 'b'] from rfl]
  rw [List.foldl_cons, templateStep_close _ _, List.foldl_nil]
  rw [hvab]
  apply String.ext
  unfold strReplace
  rw [mk_data, mk_data]
  rw [show ("\x7b" ++ (⟨['a', 'b']⟩ : String) ++ "\x7d").data = '{' :: ['a', 'b', '}'] from rfl]
  rw [show (['x', '{', 'a', 'b', '}', 'b', '}'] : List Char) =
    ['x'] ++ (('{' :: ['a', 'b', '}']) ++ ['b', '}']) from rfl]
  rw [rustReplace_skip ['a', 'b', '}'] w.data (show '{' ∉ ['x'] by decide) _]
  rw [rustReplace_head]
  rw [rustReplace_no_occ _ (show '{' ∈ '{' :: ['a', 'b', '}'] by decide)
    (show '{' ∉ ['b', '}'] by decide)]
  simp [String.data_append]

end CmusNotify
